import Mathlib

/- Batteries marks the arithmetic on `Rat` `[irreducible]`, which blocks
`decide`/`rfl` evaluation of concrete converter runs; restore the default
reducibility for this verification development. -/
unseal Rat.add Rat.mul Rat.sub Rat.inv Rat.ofScientific

/-!
Shallow embedding of the two CSV converters of this repository,
`convert_bunq.py` (interest converter) and `convert_trading212.py`
(trade/income converter).

Modelling conventions:
* Python `str` values are `List Char`; Python `Decimal` values are `ℚ`.
  Decimal addition, subtraction and multiplication are exact whenever
  the exact result fits in the context precision of 28 significant
  digits, which covers every sum, difference and product these
  converters form from plain CSV money literals, so they are modelled
  by exact `ℚ` arithmetic. Decimal division rounds every quotient to 28
  significant digits (`ROUND_HALF_EVEN`), so it is modelled by
  `divDecimal`, the correctly rounded quotient, not by exact division.
* A CSV row produced by `csv.DictReader` is an association list from
  column name to cell text (`Row`).
* A Python function that can raise returns `Option`: `none` models an
  uncaught exception (KeyError, InvalidOperation, ValueError,
  DivisionByZero, IndexError); `some` is normal return.
-/

/-- Python `str.strip()`: drop leading and trailing whitespace. -/
def trimL (l : List Char) : List Char :=
  ((l.dropWhile Char.isWhitespace).reverse.dropWhile Char.isWhitespace).reverse

/-- Recursion core of `splitWS`, structurally recursive on a fuel
counter: every step emits the next token and drops at least one
character, so `l.length + 1` steps always suffice. -/
def splitWSFuel : Nat → List Char → List (List Char)
  | 0, _ => []
  | n + 1, l =>
    match l.dropWhile Char.isWhitespace with
    | [] => []
    | c :: cs =>
      (c :: cs.takeWhile (fun x => !x.isWhitespace)) ::
        splitWSFuel n (cs.dropWhile (fun x => !x.isWhitespace))

/-- Python `str.split()` with no argument: split on runs of whitespace,
producing no empty tokens. -/
def splitWS (l : List Char) : List (List Char) := splitWSFuel (l.length + 1) l

/-- Numeric value of a decimal digit character. -/
def digitVal (c : Char) : Nat := c.toNat - 48

/-- Value of a big-endian string of decimal digits. -/
def natOfDigits (l : List Char) : Nat := l.foldl (fun a c => 10 * a + digitVal c) 0

/-- Python `decimal.Decimal(text)` on the plain literals these CSV files
carry: optional sign, integer digits, optional fraction digits, at least
one digit in all. `none` models `InvalidOperation`. -/
def parseUnsignedDec (l : List Char) : Option ℚ :=
  let ip := l.takeWhile (fun c => c != '.')
  match l.dropWhile (fun c => c != '.') with
  | [] =>
    if ip ≠ [] ∧ ip.all Char.isDigit then some (natOfDigits ip) else none
  | _ :: fp =>
    if ip ++ fp ≠ [] ∧ ip.all Char.isDigit ∧ fp.all Char.isDigit then
      some ((natOfDigits (ip ++ fp) : ℚ) / ((10 : ℚ) ^ fp.length))
    else none

/-- Signed decimal literal parser, wrapping `parseUnsignedDec`. -/
def parseDecimal (l : List Char) : Option ℚ :=
  match l with
  | '-' :: rest => (parseUnsignedDec rest).map (fun q => -q)
  | '+' :: rest => parseUnsignedDec rest
  | _ => parseUnsignedDec l

/-- A calendar date, as `datetime.date`. -/
structure Date where
  year : Nat
  month : Nat
  day : Nat
deriving DecidableEq

/-- A timestamp, as `datetime.datetime`. -/
structure DateTime where
  year : Nat
  month : Nat
  day : Nat
  hour : Nat
  minute : Nat
  second : Nat
  microsecond : Nat
deriving DecidableEq

/-- Python `datetime.date()`: the date component. -/
def DateTime.date (dt : DateTime) : Date := ⟨dt.year, dt.month, dt.day⟩

/-- Gregorian leap-year rule. -/
def isLeapYear (y : Nat) : Bool := (y % 4 == 0 && y % 100 != 0) || y % 400 == 0

/-- Number of days in a month. -/
def daysInMonth (y m : Nat) : Nat :=
  if m = 2 then (if isLeapYear y then 29 else 28)
  else if m = 4 ∨ m = 6 ∨ m = 9 ∨ m = 11 then 30 else 31

/-- Validity of a year-month-day triple under `datetime`'s constraints. -/
def validYMD (y m d : Nat) : Prop :=
  1 ≤ y ∧ y ≤ 9999 ∧ 1 ≤ m ∧ m ≤ 12 ∧ 1 ≤ d ∧ d ≤ daysInMonth y m

instance (y m d : Nat) : Decidable (validYMD y m d) := by
  unfold validYMD; infer_instance

/-- Two-digit value. -/
def val2 (a b : Char) : Nat := 10 * digitVal a + digitVal b

/-- Four-digit value. -/
def val4 (a b c d : Char) : Nat :=
  1000 * digitVal a + 100 * digitVal b + 10 * digitVal c + digitVal d

/-- `datetime.strptime(s, "%Y-%m-%d %H:%M:%S")`: zero-padded whole-second
timestamp; `none` models `ValueError`. -/
def strptime_whole (l : List Char) : Option DateTime :=
  match l with
  | [y1, y2, y3, y4, '-', m1, m2, '-', da1, da2, ' ',
     h1, h2, ':', n1, n2, ':', s1, s2] =>
    if ([y1, y2, y3, y4, m1, m2, da1, da2, h1, h2, n1, n2, s1, s2].all Char.isDigit) then
      let y := val4 y1 y2 y3 y4
      let mo := val2 m1 m2
      let da := val2 da1 da2
      let h := val2 h1 h2
      let mi := val2 n1 n2
      let s := val2 s1 s2
      if validYMD y mo da ∧ h ≤ 23 ∧ mi ≤ 59 ∧ s ≤ 59 then
        some ⟨y, mo, da, h, mi, s, 0⟩
      else none
    else none
  | _ => none

/-- `datetime.strptime(s, "%Y-%m-%d %H:%M:%S.%f")`: same, followed by a
dot and one to six fractional-second digits (`%f`, right-padded to
microseconds). -/
def strptime_frac (l : List Char) : Option DateTime :=
  match l with
  | y1 :: y2 :: y3 :: y4 :: '-' :: m1 :: m2 :: '-' :: da1 :: da2 :: ' ' ::
    h1 :: h2 :: ':' :: n1 :: n2 :: ':' :: s1 :: s2 :: '.' :: frac =>
    if ([y1, y2, y3, y4, m1, m2, da1, da2, h1, h2, n1, n2, s1, s2].all Char.isDigit)
        ∧ frac ≠ [] ∧ frac.length ≤ 6 ∧ frac.all Char.isDigit then
      let y := val4 y1 y2 y3 y4
      let mo := val2 m1 m2
      let da := val2 da1 da2
      let h := val2 h1 h2
      let mi := val2 n1 n2
      let s := val2 s1 s2
      if validYMD y mo da ∧ h ≤ 23 ∧ mi ≤ 59 ∧ s ≤ 59 then
        some ⟨y, mo, da, h, mi, s, natOfDigits frac * 10 ^ (6 - frac.length)⟩
      else none
    else none
  | _ => none

/-- `_parse_datetime` from `convert_trading212.py` (lines 160-165): try
the fractional format, and on `ValueError` fall back to the whole-second
format; `none` models the fallback itself raising. -/
def parse_datetime (l : List Char) : Option DateTime :=
  match strptime_frac l with
  | some dt => some dt
  | none => strptime_whole l

/-- `datetime.strptime(s, "%Y-%m-%d")` as used on the bunq `Date` field
(`convert_bunq.py` line 31): the result is a datetime at midnight. -/
def strptime_date (l : List Char) : Option DateTime :=
  match l with
  | [y1, y2, y3, y4, '-', m1, m2, '-', da1, da2] =>
    if ([y1, y2, y3, y4, m1, m2, da1, da2].all Char.isDigit) then
      let y := val4 y1 y2 y3 y4
      let mo := val2 m1 m2
      let da := val2 da1 da2
      if validYMD y mo da then some ⟨y, mo, da, 0, 0, 0, 0⟩ else none
    else none
  | _ => none

/-- Decimal digits of `n`, left-padded with zeros to width `w`. -/
def padDigits (w n : Nat) : List Char :=
  let ds := Nat.toDigits 10 n
  List.replicate (w - ds.length) '0' ++ ds

/-- Python `date.isoformat()`: `YYYY-MM-DD`. -/
def Date.isoformat (d : Date) : List Char :=
  padDigits 4 d.year ++ '-' :: (padDigits 2 d.month ++ '-' :: padDigits 2 d.day)

/-- Recursion core of `digits10`, structurally recursive on a fuel
counter (`n + 1` steps always suffice since the argument shrinks by a
factor of ten each step). -/
def digits10Fuel : Nat → Nat → Nat
  | 0, _ => 0
  | fuel + 1, n => if n < 10 then 1 else digits10Fuel fuel (n / 10) + 1

/-- Number of decimal digits of `n`. -/
def digits10 (n : Nat) : Nat := digits10Fuel (n + 1) n

/-- Round `N / D` to the nearest integer, ties to even (the decimal
module's default `ROUND_HALF_EVEN`). -/
def rndHalfEven (N D : Nat) : Nat :=
  let q := N / D
  let r := N % D
  if 2 * r < D then q
  else if D < 2 * r then q + 1
  else if q % 2 = 0 then q else q + 1

/-- Python `Decimal.__truediv__` under the default context
(`decimal.getcontext()`: 28 significant digits, `ROUND_HALF_EVEN`): the
quotient correctly rounded to 28 significant digits. The magnitude of
`p / e` is `N0 / D0`; `u - dn` (or `dn - u`, exactly one is nonzero) is
how far the quotient must be scaled so that keeping its integer part
keeps exactly 28 significant digits. Exact whenever the exact quotient
fits in 28 significant digits (`divDecimal_exact`). The caller guards
division by zero, which raises in Python; `e = 0` is given a junk value
here and is never reached through `convert_trade_row`. -/
def divDecimal (p e : ℚ) : ℚ :=
  if p = 0 ∨ e = 0 then 0
  else
    let N0 := p.num.natAbs * e.den
    let D0 := e.num.natAbs * p.den
    let dn := digits10 N0
    let dd := digits10 D0
    let u := 27 + dd + (if D0 * 10 ^ dn ≤ N0 * 10 ^ dd then 0 else 1)
    let c := rndHalfEven (N0 * 10 ^ (u - dn)) (D0 * 10 ^ (dn - u))
    let mag : ℚ := (c : ℚ) * 10 ^ (dn - u) / 10 ^ (u - dn)
    if p.num * e.num < 0 then -mag else mag

/-- A CSV row as `csv.DictReader` yields it: column name to cell text. -/
abbrev Row : Type := List (List Char × List Char)

/-- Python `row[key]`: `none` models a `KeyError`. -/
def Row.get (r : Row) (k : List Char) : Option (List Char) := List.lookup k r

/-- Trade direction. -/
inductive Direction
  | BUY
  | SELL
deriving DecidableEq

/-- Income record type tag. -/
inductive IncomeType
  | INTEREST
  | DIVIDEND
deriving DecidableEq

/-- The normalized trade record built by `_convert_trade_row`.
String-typed fields hold the text the Python dict holds; `price` and
`amount` hold the value of the `Decimal` the code stringifies. -/
structure TradeRecord where
  broker : List Char
  tx_id : List Char
  direction : Direction
  symbol : List Char
  isin : List Char
  country : List Char
  currency : List Char
  price : ℚ
  quantity : List Char
  amount : ℚ
  commission : List Char
  operation_datetime : DateTime
  settlement_date : Date
deriving DecidableEq

/-- The normalized income record built by both converters.
`wht_amount` holds the value of the `Decimal` (or literal `'0'`) the
code stringifies. -/
structure IncomeRecord where
  broker : List Char
  tx_id : List Char
  income_type : IncomeType
  symbol : List Char
  currency : List Char
  gross_amount : List Char
  wht_amount : ℚ
  operation_datetime : DateTime
  settlement_date : Date
deriving DecidableEq

def keyDescription : List Char := "Description".toList

def keyDate : List Char := "Date".toList

def keyAmount : List Char := "Amount".toList

def keyAction : List Char := "Action".toList

def keyISIN : List Char := "ISIN".toList

def keyTicker : List Char := "Ticker".toList

def keyID : List Char := "ID".toList

def keyTime : List Char := "Time".toList

def keyShares : List Char := "No. of shares".toList

def keyPrice : List Char := "Price / share".toList

def keyTotal : List Char := "Total".toList

def keyCurTotal : List Char := "Currency (Total)".toList

def keyRate : List Char := "Exchange rate".toList

def keyFee : List Char := "Currency conversion fee".toList

def keyWht : List Char := "Withholding tax".toList

def keyCurWht : List Char := "Currency (Withholding tax)".toList

def brokerBUNQ : List Char := "BUNQ".toList

def brokerT212 : List Char := "T212".toList

def markerBunqPayday : List Char := "bunq Payday".toList

def sfxINT : List Char := "-INT".toList

def actMarketBuy : List Char := "Market buy".toList

def actMarketSell : List Char := "Market sell".toList

def actInterest : List Char := "Interest on cash".toList

def actDividend : List Char := "Dividend".toList

def zeroStr : List Char := "0".toList

/-- One iteration of the row loop in `convert_bunq` (lines 24-54):
`some none` is a row filtered out by the payday marker, `some (some rec)`
a converted row, `none` a raised exception. -/
def bunq_row (r : Row) : Option (Option IncomeRecord) :=
  (r.get keyDescription).bind fun rawDesc =>
  let description := trimL rawDesc
  if markerBunqPayday <:+: description then
    (r.get keyDate).bind fun rawDate =>
    (strptime_date (trimL rawDate)).bind fun operation_datetime =>
    let settlement_date := operation_datetime.date
    (r.get keyAmount).bind fun rawAmount =>
    let amount_str := (trimL rawAmount).filter (fun c => c != ',')
    ((splitWS description).getLast?).bind fun currency =>
    let symbol := currency ++ sfxINT
    some (some
      { broker := brokerBUNQ
        tx_id := symbol ++ ':' :: settlement_date.isoformat
        income_type := IncomeType.INTEREST
        symbol := symbol
        currency := currency
        gross_amount := amount_str
        wht_amount := 0
        operation_datetime := operation_datetime
        settlement_date := settlement_date })
  else some none

/-- The accumulated `output_rows` of `convert_bunq`, in input order. -/
def bunq_records : List Row → Option (List IncomeRecord)
  | [] => some []
  | r :: rest =>
    (bunq_row r).bind fun h =>
    (bunq_records rest).map fun t =>
    match h with
    | some rec => rec :: t
    | none => t

/-- Outcome of a full `convert_bunq` run: the rows written to the output
file (`none` when the write is skipped because `output_rows` is empty,
lines 56-60) and the returned `rows_converted` count. -/
structure BunqRun where
  written : Option (List IncomeRecord)
  count : Nat
deriving DecidableEq

/-- `convert_bunq` over the in-memory row sequence. -/
def convert_bunq (rows : List Row) : Option BunqRun :=
  (bunq_records rows).map fun recs =>
    ⟨if recs.isEmpty then none else some recs, recs.length⟩

/-- `_convert_trade_row` (lines 53-99). The required-column lookups are
gathered in one match (they are pure; a missing key raises `KeyError`,
here `none`, exactly as in the source's order-interleaved reads).
Division by a zero exchange rate raises `DivisionByZero`, here `none`. -/
def convert_trade_row (r : Row) : Option TradeRecord :=
  match r.get keyAction, r.get keyISIN, r.get keyTicker, r.get keyID, r.get keyTime,
      r.get keyShares, r.get keyPrice, r.get keyTotal, r.get keyCurTotal, r.get keyRate with
  | some rawAction, some rawIsin, some rawTicker, some rawId, some rawTime,
    some rawShares, some rawPrice, some rawTotal, some rawCur, some rawRate =>
    let action := trimL rawAction
    let direction := if action = actMarketBuy then Direction.BUY else Direction.SELL
    let isin := trimL rawIsin
    (parse_datetime (trimL rawTime)).bind fun operation_datetime =>
    (parseDecimal (trimL rawPrice)).bind fun price_original =>
    (parseDecimal (trimL rawTotal)).bind fun total =>
    (parseDecimal (trimL rawRate)).bind fun exchange_rate =>
    if exchange_rate = 0 then none
    else
    let commission_str := trimL ((r.get keyFee).getD [])
    let commission := if commission_str = [] then zeroStr else commission_str
    (parseDecimal commission).bind fun commission_dec =>
    some
      { broker := brokerT212
        tx_id := trimL rawId
        direction := direction
        symbol := trimL rawTicker
        isin := isin
        country := if 2 ≤ isin.length then isin.take 2 else []
        currency := trimL rawCur
        price := divDecimal price_original exchange_rate
        quantity := trimL rawShares
        amount := if direction = Direction.SELL then total + commission_dec
                  else total - commission_dec
        commission := commission
        operation_datetime := operation_datetime
        settlement_date := operation_datetime.date }
  | _, _, _, _, _, _, _, _, _, _ => none

/-- `_convert_interest_row` (lines 102-119). -/
def convert_interest_row (r : Row) : Option IncomeRecord :=
  (r.get keyTime).bind fun rawTime =>
  (parse_datetime (trimL rawTime)).bind fun operation_datetime =>
  let settlement_date := operation_datetime.date
  (r.get keyTotal).bind fun rawTotal =>
  let gross_amount := trimL rawTotal
  (r.get keyCurTotal).bind fun rawCur =>
  let currency := trimL rawCur
  (r.get keyID).bind fun rawId =>
  let tx_id := trimL rawId
  some
    { broker := brokerT212
      tx_id := tx_id
      income_type := IncomeType.INTEREST
      symbol := currency ++ sfxINT
      currency := currency
      gross_amount := gross_amount
      wht_amount := 0
      operation_datetime := operation_datetime
      settlement_date := settlement_date }

/-- `_convert_dividend_row` (lines 122-157). The `Exchange rate` cell is
looked up unconditionally (line 134) but parsed only when the
withholding-tax cell is non-empty (lines 136-138). -/
def convert_dividend_row (r : Row) : Option IncomeRecord :=
  match r.get keyTime, r.get keyTicker, r.get keyID, r.get keyTotal,
      r.get keyCurTotal, r.get keyRate with
  | some rawTime, some rawTicker, some rawId, some rawTotal, some rawCur, some rawRate =>
    (parse_datetime (trimL rawTime)).bind fun operation_datetime =>
    let settlement_currency := trimL rawCur
    let wht_str := trimL ((r.get keyWht).getD [])
    let wht_currency_str := trimL ((r.get keyCurWht).getD [])
    let exchange_rate_str := trimL rawRate
    (if wht_str ≠ [] then
      (parseDecimal wht_str).bind fun wht_original =>
      (parseDecimal exchange_rate_str).bind fun exchange_rate =>
      if wht_currency_str ≠ [] ∧ wht_currency_str ≠ settlement_currency then
        some (wht_original * exchange_rate)
      else some wht_original
    else some (0 : ℚ)).bind fun wht_amount =>
    some
      { broker := brokerT212
        tx_id := trimL rawId
        income_type := IncomeType.DIVIDEND
        symbol := trimL rawTicker
        currency := settlement_currency
        gross_amount := trimL rawTotal
        wht_amount := wht_amount
        operation_datetime := operation_datetime
        settlement_date := operation_datetime.date }
  | _, _, _, _, _, _ => none

/-- Result of classifying one row in `convert_trading212`'s loop. -/
inductive RowClass
  | trade : TradeRecord → RowClass
  | income : IncomeRecord → RowClass
  | skip : RowClass
deriving DecidableEq

/-- The per-row dispatch of `convert_trading212` (lines 26-42): exact
match on the trimmed `Action`, checked in source order; unrecognized
actions are skipped. -/
def t212_row (r : Row) : Option RowClass :=
  (r.get keyAction).bind fun rawAction =>
  let action := trimL rawAction
  if action = actMarketBuy ∨ action = actMarketSell then
    (convert_trade_row r).map RowClass.trade
  else if action = actInterest then
    (convert_interest_row r).map RowClass.income
  else if actDividend.isPrefixOf action then
    (convert_dividend_row r).map RowClass.income
  else
    some RowClass.skip

/-- The accumulated `trade_rows` and `income_rows` of
`convert_trading212`, in input order. -/
def t212_records : List Row → Option (List TradeRecord × List IncomeRecord)
  | [] => some ([], [])
  | r :: rest =>
    (t212_row r).bind fun c =>
    (t212_records rest).map fun p =>
    match c with
    | RowClass.trade t => (t :: p.1, p.2)
    | RowClass.income i => (p.1, i :: p.2)
    | RowClass.skip => p

/-- Outcome of a full `convert_trading212` run: each output file receives
its rows only when its list is nonempty (lines 44-48), and the two counts
are returned. -/
structure T212Run where
  trades_written : Option (List TradeRecord)
  income_written : Option (List IncomeRecord)
  trades_converted : Nat
  income_converted : Nat
deriving DecidableEq

/-- `convert_trading212` over the in-memory row sequence. -/
def convert_trading212 (rows : List Row) : Option T212Run :=
  (t212_records rows).map fun p =>
    ⟨if p.1.isEmpty then none else some p.1,
     if p.2.isEmpty then none else some p.2,
     p.1.length, p.2.length⟩

/-- The single stderr line `main` of `convert_bunq.py` prints on a caught
exception (line 77). -/
def errLine : List Char := "Error".toList

/-- Terminal behaviour of the bunq CLI entry point. -/
inductive BunqCLI
  | success : BunqRun → BunqCLI
  | failure : Nat → List Char → BunqCLI
deriving DecidableEq

/-- `main` of `convert_bunq.py` (lines 72-81): the conversion outcome is
wrapped in try/except; an exception becomes one stderr line and
`sys.exit(1)`. -/
def bunq_main (res : Option BunqRun) : BunqCLI :=
  match res with
  | some run => BunqCLI.success run
  | none => BunqCLI.failure 1 errLine

/-- Terminal behaviour of the Trading 212 CLI entry point on success. -/
inductive T212CLI
  | success : T212Run → T212CLI
deriving DecidableEq

/-- `main` of `convert_trading212.py` (lines 182-200): no try/except, so
an exception (`none`) propagates out of the entry point unchanged. -/
def t212_main (res : Option T212Run) : Option T212CLI :=
  res.map T212CLI.success

/-!
Inversion lemmas: what a successful run of each row converter reveals
about the row and the record it emitted.
-/


theorem convert_interest_row_inv (r : Row) (rec : IncomeRecord)
    (h : convert_interest_row r = some rec) :
    ∃ rawTime rawTotal rawCur rawId dt,
      r.get keyTime = some rawTime ∧
      parse_datetime (trimL rawTime) = some dt ∧
      r.get keyTotal = some rawTotal ∧
      r.get keyCurTotal = some rawCur ∧
      r.get keyID = some rawId ∧
      rec = { broker := brokerT212
              tx_id := trimL rawId
              income_type := IncomeType.INTEREST
              symbol := trimL rawCur ++ sfxINT
              currency := trimL rawCur
              gross_amount := trimL rawTotal
              wht_amount := 0
              operation_datetime := dt
              settlement_date := dt.date } := by
  unfold convert_interest_row at h
  rw [Option.bind_eq_some] at h
  obtain ⟨rawTime, hTime, h⟩ := h
  rw [Option.bind_eq_some] at h
  obtain ⟨dt, hdt, h⟩ := h
  simp only [Option.bind_eq_some] at h
  obtain ⟨rawTotal, hTot, rawCur, hCur, rawId, hId, h⟩ := h
  exact ⟨rawTime, rawTotal, rawCur, rawId, dt, hTime, hdt, hTot, hCur, hId,
    (Option.some_inj.mp h).symm⟩

theorem convert_trade_row_inv (r : Row) (rec : TradeRecord)
    (h : convert_trade_row r = some rec) :
    ∃ rawAction rawIsin rawTicker rawId rawTime rawShares rawPrice rawTotal rawCur rawRate,
      r.get keyAction = some rawAction ∧ r.get keyISIN = some rawIsin ∧
      r.get keyTicker = some rawTicker ∧ r.get keyID = some rawId ∧
      r.get keyTime = some rawTime ∧ r.get keyShares = some rawShares ∧
      r.get keyPrice = some rawPrice ∧ r.get keyTotal = some rawTotal ∧
      r.get keyCurTotal = some rawCur ∧ r.get keyRate = some rawRate ∧
      ∃ dt p tot e c,
        parse_datetime (trimL rawTime) = some dt ∧
        parseDecimal (trimL rawPrice) = some p ∧
        parseDecimal (trimL rawTotal) = some tot ∧
        parseDecimal (trimL rawRate) = some e ∧
        e ≠ 0 ∧
        parseDecimal (if trimL ((r.get keyFee).getD []) = [] then zeroStr
                      else trimL ((r.get keyFee).getD [])) = some c ∧
        rec = { broker := brokerT212
                tx_id := trimL rawId
                direction := if trimL rawAction = actMarketBuy then Direction.BUY
                             else Direction.SELL
                symbol := trimL rawTicker
                isin := trimL rawIsin
                country := if 2 ≤ (trimL rawIsin).length then (trimL rawIsin).take 2 else []
                currency := trimL rawCur
                price := divDecimal p e
                quantity := trimL rawShares
                amount := if (if trimL rawAction = actMarketBuy then Direction.BUY
                              else Direction.SELL) = Direction.SELL
                          then tot + c else tot - c
                commission := if trimL ((r.get keyFee).getD []) = [] then zeroStr
                              else trimL ((r.get keyFee).getD [])
                operation_datetime := dt
                settlement_date := dt.date } := by
  unfold convert_trade_row at h
  split at h
  case _ rawAction rawIsin rawTicker rawId rawTime rawShares rawPrice rawTotal rawCur rawRate
      hA hI hTk hId hTm hSh hP hT hC hR =>
    simp only [Option.bind_eq_some] at h
    obtain ⟨dt, hdt, p, hp, tot, htot, e, he, h⟩ := h
    split at h
    · simp at h
    · rename_i he0
      simp only [Option.bind_eq_some] at h
      obtain ⟨c, hc, h⟩ := h
      exact ⟨rawAction, rawIsin, rawTicker, rawId, rawTime, rawShares, rawPrice, rawTotal,
        rawCur, rawRate, hA, hI, hTk, hId, hTm, hSh, hP, hT, hC, hR,
        dt, p, tot, e, c, hdt, hp, htot, he, he0, hc, (Option.some_inj.mp h).symm⟩
  case _ => exact absurd h (by simp)

theorem convert_dividend_row_inv (r : Row) (rec : IncomeRecord)
    (h : convert_dividend_row r = some rec) :
    ∃ rawTime rawTicker rawId rawTotal rawCur rawRate dt w,
      r.get keyTime = some rawTime ∧ r.get keyTicker = some rawTicker ∧
      r.get keyID = some rawId ∧ r.get keyTotal = some rawTotal ∧
      r.get keyCurTotal = some rawCur ∧ r.get keyRate = some rawRate ∧
      parse_datetime (trimL rawTime) = some dt ∧
      (if trimL ((r.get keyWht).getD []) ≠ [] then
        (parseDecimal (trimL ((r.get keyWht).getD []))).bind fun wht_original =>
        (parseDecimal (trimL rawRate)).bind fun exchange_rate =>
        if trimL ((r.get keyCurWht).getD []) ≠ [] ∧
            trimL ((r.get keyCurWht).getD []) ≠ trimL rawCur then
          some (wht_original * exchange_rate)
        else some wht_original
      else some (0 : ℚ)) = some w ∧
      rec = { broker := brokerT212
              tx_id := trimL rawId
              income_type := IncomeType.DIVIDEND
              symbol := trimL rawTicker
              currency := trimL rawCur
              gross_amount := trimL rawTotal
              wht_amount := w
              operation_datetime := dt
              settlement_date := dt.date } := by
  unfold convert_dividend_row at h
  split at h
  case _ rawTime rawTicker rawId rawTotal rawCur rawRate hTm hTk hId hT hC hR =>
    simp only [Option.bind_eq_some] at h
    obtain ⟨dt, hdt, w, hw, h⟩ := h
    exact ⟨rawTime, rawTicker, rawId, rawTotal, rawCur, rawRate, dt, w,
      hTm, hTk, hId, hT, hC, hR, hdt, hw, (Option.some_inj.mp h).symm⟩
  case _ => exact absurd h (by simp)

theorem bunq_row_emit_inv (r : Row) (rec : IncomeRecord)
    (h : bunq_row r = some (some rec)) :
    ∃ rawDesc rawDate rawAmount dt currency,
      r.get keyDescription = some rawDesc ∧
      markerBunqPayday <:+: trimL rawDesc ∧
      r.get keyDate = some rawDate ∧
      strptime_date (trimL rawDate) = some dt ∧
      r.get keyAmount = some rawAmount ∧
      (splitWS (trimL rawDesc)).getLast? = some currency ∧
      rec = { broker := brokerBUNQ
              tx_id := (currency ++ sfxINT) ++ ':' :: (DateTime.date dt).isoformat
              income_type := IncomeType.INTEREST
              symbol := currency ++ sfxINT
              currency := currency
              gross_amount := (trimL rawAmount).filter (fun c => c != ',')
              wht_amount := 0
              operation_datetime := dt
              settlement_date := dt.date } := by
  unfold bunq_row at h
  rw [Option.bind_eq_some] at h
  obtain ⟨rawDesc, hD, h⟩ := h
  simp only [] at h
  split at h
  · rename_i hM
    simp only [Option.bind_eq_some] at h
    obtain ⟨rawDate, hDa, dt, hdt, rawAmount, hAm, currency, hCu, h⟩ := h
    exact ⟨rawDesc, rawDate, rawAmount, dt, currency, hD, hM, hDa, hdt, hAm, hCu,
      by simpa using h.symm⟩
  · simp at h

theorem splitWS_ne_nil_of_mem (l : List Char) (c : Char) (hc : c ∈ l)
    (hw : c.isWhitespace = false) : splitWS l ≠ [] := by
  intro hnil
  unfold splitWS splitWSFuel at hnil
  split at hnil
  · rename_i hd
    rw [List.dropWhile_eq_nil_iff] at hd
    have := hd c hc
    rw [hw] at this
    exact Bool.false_ne_true this
  · exact absurd hnil (by simp)


/-- Claim C1: for every Trading 212 row classified as a dividend, the
emitted `wht_amount` is 0 when the `Withholding tax` cell is empty;
otherwise it is the decimal value of `Withholding tax` multiplied by
`Exchange rate` when `Currency (Withholding tax)` is non-empty and
differs from the settlement currency `Currency (Total)`, and the decimal
value of `Withholding tax` unchanged otherwise. -/
theorem claim_C1 (r : Row) (rec : IncomeRecord)
    (h : convert_dividend_row r = some rec)
    (rawCur rawRate : List Char)
    (hcur : r.get keyCurTotal = some rawCur) (hrate : r.get keyRate = some rawRate) :
    (trimL ((r.get keyWht).getD []) = [] → rec.wht_amount = 0) ∧
    (∀ w e : ℚ, trimL ((r.get keyWht).getD []) ≠ [] →
      parseDecimal (trimL ((r.get keyWht).getD [])) = some w →
      parseDecimal (trimL rawRate) = some e →
      ((trimL ((r.get keyCurWht).getD []) ≠ [] ∧
          trimL ((r.get keyCurWht).getD []) ≠ trimL rawCur →
        rec.wht_amount = w * e) ∧
       ((trimL ((r.get keyCurWht).getD []) = [] ∨
          trimL ((r.get keyCurWht).getD []) = trimL rawCur) →
        rec.wht_amount = w))) := by
  obtain ⟨rT, rTk, rId, rTot, rC, rR, dt, w0, hTm, hTk, hId, hT, hC, hR, hdt, hw, hrec⟩ :=
    convert_dividend_row_inv r rec h
  rw [hC] at hcur
  injection hcur with hcur
  subst hcur
  rw [hR] at hrate
  injection hrate with hrate
  subst hrate
  subst hrec
  constructor
  · intro hempty
    rw [if_neg (by simp [hempty])] at hw
    simpa using hw.symm
  · intro w e hne hpw hpe
    rw [if_pos hne] at hw
    rw [Option.bind_eq_some] at hw
    obtain ⟨w1, hw1, hw⟩ := hw
    rw [hpw] at hw1
    injection hw1 with hw1
    subst hw1
    rw [Option.bind_eq_some] at hw
    obtain ⟨e1, he1, hw⟩ := hw
    rw [hpe] at he1
    injection he1 with he1
    subst he1
    constructor
    · intro hdiff
      rw [if_pos hdiff] at hw
      simpa using hw.symm
    · intro hsame
      rw [if_neg (by rcases hsame with hs | hs <;> simp [hs])] at hw
      simpa using hw.symm

def rowC1 : Row :=
  [(keyAction, "Dividend (Ordinary)".toList),
   (keyTicker, "AAPL".toList),
   (keyID, "d-1".toList),
   (keyTime, "2025-07-22 10:06:57".toList),
   (keyTotal, "50".toList),
   (keyCurTotal, "EUR".toList),
   (keyRate, "0.9".toList),
   (keyWht, "5".toList),
   (keyCurWht, "USD".toList)]

def recC1 : IncomeRecord :=
  { broker := brokerT212
    tx_id := "d-1".toList
    income_type := IncomeType.DIVIDEND
    symbol := "AAPL".toList
    currency := "EUR".toList
    gross_amount := "50".toList
    wht_amount := 9 / 2
    operation_datetime := ⟨2025, 7, 22, 10, 6, 57, 0⟩
    settlement_date := ⟨2025, 7, 22⟩ }

/-- Claim C1 witness: the spec example. Withholding tax `5` in `USD`
against settlement currency `EUR` at exchange rate `0.9` yields
`wht_amount` `5 * 0.9 = 4.5`. -/
theorem claim_C1_witness :
    recC1.wht_amount = 5 * (9 / 10 : ℚ) ∧ 5 * (9 / 10 : ℚ) = 9 / 2 :=
  ⟨((claim_C1 rowC1 recC1 (by decide) ("EUR".toList) ("0.9".toList) (by decide)
      (by decide)).2 5 (9 / 10) (by decide) (by decide) (by decide)).1 (by decide),
   by decide⟩

/-- Claim C2: for every Trading 212 row classified as a trade, the
emitted `amount` is `Total + commission` for a SELL and
`Total - commission` for a BUY, in exact decimal arithmetic, where
`commission` is the `Currency conversion fee` cell when present and
non-empty and the string `0` otherwise. -/
theorem claim_C2 (r : Row) (rec : TradeRecord)
    (h : convert_trade_row r = some rec)
    (rawTotal : List Char) (htot : r.get keyTotal = some rawTotal)
    (total fee : ℚ) (hT : parseDecimal (trimL rawTotal) = some total)
    (hF : parseDecimal (if trimL ((r.get keyFee).getD []) = [] then zeroStr
          else trimL ((r.get keyFee).getD [])) = some fee) :
    rec.commission = (if trimL ((r.get keyFee).getD []) = [] then zeroStr
      else trimL ((r.get keyFee).getD [])) ∧
    (rec.direction = Direction.SELL → rec.amount = total + fee) ∧
    (rec.direction = Direction.BUY → rec.amount = total - fee) := by
  obtain ⟨rA, rI, rTk, rId, rTm, rSh, rP, rT, rC, rR, hA, hI, hTk, hId, hTm, hSh, hP,
    hT2, hC, hR, dt, p, tot, e, c, hdt, hp, htot2, he, he0, hc, hrec⟩ :=
    convert_trade_row_inv r rec h
  rw [hT2] at htot
  injection htot with htot
  subst htot
  rw [htot2] at hT
  injection hT with hT
  subst hT
  rw [hc] at hF
  injection hF with hF
  subst hF
  subst hrec
  by_cases hb : trimL rA = actMarketBuy <;>
    simp [hb]

def rowC2 : Row :=
  [(keyAction, "Market sell".toList),
   (keyISIN, "US0378331005".toList),
   (keyTicker, "AAPL".toList),
   (keyID, "t-1".toList),
   (keyTime, "2025-07-22 10:06:57.358".toList),
   (keyShares, "2".toList),
   (keyPrice, "10".toList),
   (keyTotal, "100".toList),
   (keyCurTotal, "EUR".toList),
   (keyRate, "0.8".toList),
   (keyFee, "2".toList)]

def recC2 : TradeRecord :=
  { broker := brokerT212
    tx_id := "t-1".toList
    direction := Direction.SELL
    symbol := "AAPL".toList
    isin := "US0378331005".toList
    country := "US".toList
    currency := "EUR".toList
    price := 25 / 2
    quantity := "2".toList
    amount := 102
    commission := "2".toList
    operation_datetime := ⟨2025, 7, 22, 10, 6, 57, 358000⟩
    settlement_date := ⟨2025, 7, 22⟩ }

/-- Claim C2 witness: a SELL with `Total = 100` and commission `2` is
emitted with `amount = 100 + 2`. -/
theorem claim_C2_witness : recC2.amount = 100 + 2 :=
  (claim_C2 rowC2 recC2 (by decide) ("100".toList) (by decide) 100 2 (by decide)
    (by decide)).2.1 (by decide)

/-- A fueled digit count with at least one step of fuel is positive. -/
theorem digits10Fuel_pos (fuel n : Nat) : 1 ≤ digits10Fuel (fuel + 1) n := by
  unfold digits10Fuel
  split <;> omega

/-- With sufficient fuel the digit count brackets its argument between
consecutive powers of ten. -/
theorem digits10Fuel_bounds :
    ∀ fuel n, n < fuel → 1 ≤ n →
      10 ^ (digits10Fuel fuel n - 1) ≤ n ∧ n < 10 ^ digits10Fuel fuel n := by
  intro fuel
  induction fuel with
  | zero => intro n hn _; omega
  | succ f ih =>
    intro n hn h1
    by_cases h10 : n < 10
    · unfold digits10Fuel
      rw [if_pos h10]
      simpa using ⟨h1, h10⟩
    · have hge : 10 ≤ n := le_of_not_lt h10
      have hlt : n / 10 < f := by
        have := Nat.div_lt_self (show 0 < n by omega) (show 1 < 10 by norm_num)
        omega
      have h1' : 1 ≤ n / 10 := (Nat.one_le_div_iff (by norm_num)).mpr hge
      obtain ⟨lo, hi⟩ := ih (n / 10) hlt h1'
      have hf2 : 1 ≤ f := by omega
      have hd1 : 1 ≤ digits10Fuel f (n / 10) := by
        have hrw : f - 1 + 1 = f := by omega
        have := digits10Fuel_pos (f - 1) (n / 10)
        rw [hrw] at this
        exact this
      unfold digits10Fuel
      rw [if_neg h10]
      constructor
      · have hmul : 10 ^ (digits10Fuel f (n / 10) - 1) * 10 ≤ n / 10 * 10 :=
          Nat.mul_le_mul_right 10 lo
        have hdm : n / 10 * 10 ≤ n := Nat.div_mul_le_self n 10
        have hpow : 10 ^ (digits10Fuel f (n / 10) - 1) * 10
            = 10 ^ digits10Fuel f (n / 10) := by
          rw [← pow_succ]
          congr 1
          omega
        simp only [Nat.add_sub_cancel]
        omega
      · have h4 : n < (n / 10 + 1) * 10 := by
          have := Nat.div_add_mod n 10
          have := Nat.mod_lt n (show 0 < 10 by norm_num)
          omega
        have h5 : n / 10 + 1 ≤ 10 ^ digits10Fuel f (n / 10) := hi
        have h6 : (n / 10 + 1) * 10 ≤ 10 ^ digits10Fuel f (n / 10) * 10 :=
          Nat.mul_le_mul_right 10 h5
        have h7 : 10 ^ digits10Fuel f (n / 10) * 10
            = 10 ^ (digits10Fuel f (n / 10) + 1) := (pow_succ 10 _).symm
        omega

/-- Digit-count bracketing for `digits10`. -/
theorem digits10_bounds (n : Nat) (h1 : 1 ≤ n) :
    10 ^ (digits10 n - 1) ≤ n ∧ n < 10 ^ digits10 n :=
  digits10Fuel_bounds (n + 1) n (Nat.lt_succ_self n) h1

/-- Every natural number has at least one digit. -/
theorem digits10_pos (n : Nat) : 1 ≤ digits10 n := digits10Fuel_pos n n

/-- Rounding is the identity on exact quotients. -/
theorem rndHalfEven_of_dvd (N D : Nat) (hD : 0 < D) (h : D ∣ N) :
    rndHalfEven N D = N / D := by
  have hr : N % D = 0 := Nat.mod_eq_zero_of_dvd h
  unfold rndHalfEven
  rw [hr]
  rw [if_pos (by omega)]

/-- Core exactness computation: when `A / B = m / 10 ^ k` and the
scaling exponent `u` dominates `dn + k`, the rounded scaled quotient
recovers `m / 10 ^ k` exactly. -/
theorem rnd_quot_eq (A B m k dn u : Nat) (hB : 0 < B)
    (hkey : A * 10 ^ k = m * B) (hu : dn + k ≤ u) :
    ((rndHalfEven (A * 10 ^ (u - dn)) (B * 10 ^ (dn - u)) : ℕ) : ℚ)
        * 10 ^ (dn - u) / 10 ^ (u - dn)
      = (m : ℚ) / 10 ^ k := by
  have hb0 : dn - u = 0 := by omega
  rw [hb0]
  have hdvd : A * 10 ^ (u - dn) = (m * 10 ^ (u - dn - k)) * B := by
    calc A * 10 ^ (u - dn) = A * (10 ^ k * 10 ^ (u - dn - k)) := by
          rw [← pow_add, show k + (u - dn - k) = u - dn by omega]
    _ = (A * 10 ^ k) * 10 ^ (u - dn - k) := by ring
    _ = (m * B) * 10 ^ (u - dn - k) := by rw [hkey]
    _ = (m * 10 ^ (u - dn - k)) * B := by ring
  have hrnd : rndHalfEven (A * 10 ^ (u - dn)) (B * 10 ^ 0) = m * 10 ^ (u - dn - k) := by
    rw [pow_zero, mul_one]
    rw [rndHalfEven_of_dvd _ _ hB ⟨m * 10 ^ (u - dn - k), by rw [hdvd]; ring⟩]
    rw [hdvd]
    exact Nat.mul_div_cancel _ hB
  rw [hrnd]
  push_cast
  rw [pow_zero, mul_one]
  rw [div_eq_div_iff (by positivity) (by positivity)]
  rw [mul_assoc, ← pow_add, show u - dn - k + k = u - dn by omega]

/-- Absolute value of a rational through its numerator and denominator. -/
theorem rat_abs_eq (q : ℚ) : |q| = (q.num.natAbs : ℚ) / (q.den : ℚ) := by
  conv_lhs => rw [← Rat.num_div_den q]
  rw [abs_div]
  congr 1
  · rw [Int.cast_natAbs, Int.cast_abs]
  · exact abs_of_pos (by exact_mod_cast q.den_pos)

/-- Exactness of context-rounded Decimal division: whenever the exact
quotient can be written as `c / 10 ^ k` with at most 28 significant
digits in `c`, the rounded quotient is the exact quotient — the content
of the spec's "no floating-point rounding error" requirement on the
quotients it exhibits. -/
theorem divDecimal_exact (p e : ℚ) (c : ℤ) (k : ℕ)
    (hc : c.natAbs < 10 ^ 28) (hq : p / e = mkRat c (10 ^ k)) :
    divDecimal p e = p / e := by
  by_cases hz : p = 0 ∨ e = 0
  · simp only [divDecimal]
    rw [if_pos hz]
    rcases hz with hz | hz
    · rw [hz, zero_div]
    · rw [hz, div_zero]
  · push_neg at hz
    obtain ⟨hp, he⟩ := hz
    have hpn : p.num ≠ 0 := Rat.num_ne_zero.mpr hp
    have hen : e.num ≠ 0 := Rat.num_ne_zero.mpr he
    have hA0 : 0 < p.num.natAbs * e.den :=
      Nat.mul_pos (Nat.pos_of_ne_zero (Int.natAbs_ne_zero.mpr hpn)) e.den_pos
    have hB0 : 0 < e.num.natAbs * p.den :=
      Nat.mul_pos (Nat.pos_of_ne_zero (Int.natAbs_ne_zero.mpr hen)) p.den_pos
    -- magnitude of the quotient as a ratio of the two working naturals
    have habs : |p / e| = ((p.num.natAbs * e.den : ℕ) : ℚ)
        / ((e.num.natAbs * p.den : ℕ) : ℚ) := by
      rw [abs_div, rat_abs_eq p, rat_abs_eq e]
      push_cast
      have h1 : ((p.den : ℚ)) ≠ 0 := by exact_mod_cast p.den_nz
      have h2 : ((e.den : ℚ)) ≠ 0 := by exact_mod_cast e.den_nz
      have h3 : ((e.num.natAbs : ℚ)) ≠ 0 := by
        exact_mod_cast Int.natAbs_ne_zero.mpr hen
      field_simp
      ring
    -- the claimed decimal form of the exact quotient
    have h10k : ((10 : ℚ) ^ k) ≠ 0 := by positivity
    have hq2 : |p / e| = (c.natAbs : ℚ) / 10 ^ k := by
      rw [hq, Rat.mkRat_eq_div, abs_div]
      congr 1
      · rw [Int.cast_natAbs, Int.cast_abs]
      · push_cast
        exact abs_of_pos (by positivity)
    -- the two expressions for the magnitude give one Nat identity
    have hkey : (p.num.natAbs * e.den) * 10 ^ k = c.natAbs * (e.num.natAbs * p.den) := by
      have heq : ((p.num.natAbs * e.den : ℕ) : ℚ) / ((e.num.natAbs * p.den : ℕ) : ℚ)
          = (c.natAbs : ℚ) / 10 ^ k := by rw [← habs, hq2]
      have hBq : (((e.num.natAbs * p.den : ℕ)) : ℚ) ≠ 0 := by
        exact_mod_cast Nat.pos_iff_ne_zero.mp hB0
      rw [div_eq_div_iff hBq h10k] at heq
      exact_mod_cast heq
    obtain ⟨hAlo, hAhi⟩ := digits10_bounds _ hA0
    obtain ⟨hBlo, hBhi⟩ := digits10_bounds _ hB0
    have h10 : (1 : ℕ) < 10 := by norm_num
    -- the scaling exponent dominates dn + k, in both rounding set-ups
    have hu : digits10 (p.num.natAbs * e.den) + k
        ≤ 27 + digits10 (e.num.natAbs * p.den)
          + (if (e.num.natAbs * p.den) * 10 ^ digits10 (p.num.natAbs * e.den)
                ≤ (p.num.natAbs * e.den) * 10 ^ digits10 (e.num.natAbs * p.den)
             then 0 else 1) := by
      by_cases hbig : (e.num.natAbs * p.den) * 10 ^ digits10 (p.num.natAbs * e.den)
          ≤ (p.num.natAbs * e.den) * 10 ^ digits10 (e.num.natAbs * p.den)
      · rw [if_pos hbig]
        have hstep : (e.num.natAbs * p.den)
              * 10 ^ (digits10 (p.num.natAbs * e.den) + k)
            ≤ (e.num.natAbs * p.den)
              * (c.natAbs * 10 ^ digits10 (e.num.natAbs * p.den)) := by
          calc (e.num.natAbs * p.den) * 10 ^ (digits10 (p.num.natAbs * e.den) + k)
              = ((e.num.natAbs * p.den) * 10 ^ digits10 (p.num.natAbs * e.den))
                  * 10 ^ k := by rw [pow_add]; ring
          _ ≤ ((p.num.natAbs * e.den) * 10 ^ digits10 (e.num.natAbs * p.den))
                  * 10 ^ k := Nat.mul_le_mul_right _ hbig
          _ = ((p.num.natAbs * e.den) * 10 ^ k)
                  * 10 ^ digits10 (e.num.natAbs * p.den) := by ring
          _ = (c.natAbs * (e.num.natAbs * p.den))
                  * 10 ^ digits10 (e.num.natAbs * p.den) := by rw [hkey]
          _ = (e.num.natAbs * p.den)
                  * (c.natAbs * 10 ^ digits10 (e.num.natAbs * p.den)) := by ring
        have hcan : 10 ^ (digits10 (p.num.natAbs * e.den) + k)
            ≤ c.natAbs * 10 ^ digits10 (e.num.natAbs * p.den) :=
          Nat.le_of_mul_le_mul_left hstep hB0
        have hlt : c.natAbs * 10 ^ digits10 (e.num.natAbs * p.den)
            < 10 ^ (28 + digits10 (e.num.natAbs * p.den)) := by
          rw [pow_add]
          exact (Nat.mul_lt_mul_right (Nat.pow_pos (by norm_num))).mpr hc
        have := (Nat.pow_lt_pow_iff_right h10).mp (lt_of_le_of_lt hcan hlt)
        omega
      · rw [if_neg hbig]
        have hd1 : 1 ≤ digits10 (p.num.natAbs * e.den) := digits10_pos _
        have hstep : 10 ^ (digits10 (p.num.natAbs * e.den) - 1 + k)
            ≤ c.natAbs * (e.num.natAbs * p.den) := by
          rw [pow_add, ← hkey]
          exact Nat.mul_le_mul_right _ hAlo
        have hlt : c.natAbs * (e.num.natAbs * p.den)
            < 10 ^ (28 + digits10 (e.num.natAbs * p.den)) := by
          have h1 : c.natAbs * (e.num.natAbs * p.den)
              < 10 ^ 28 * (e.num.natAbs * p.den) :=
            (Nat.mul_lt_mul_right hB0).mpr hc
          have h2 : 10 ^ 28 * (e.num.natAbs * p.den)
              ≤ 10 ^ 28 * 10 ^ digits10 (e.num.natAbs * p.den) :=
            Nat.mul_le_mul_left _ (le_of_lt hBhi)
          rw [pow_add]
          omega
        have := (Nat.pow_lt_pow_iff_right h10).mp (lt_of_le_of_lt hstep hlt)
        omega
    have hquot := rnd_quot_eq (p.num.natAbs * e.den) (e.num.natAbs * p.den) c.natAbs k
      (digits10 (p.num.natAbs * e.den))
      (27 + digits10 (e.num.natAbs * p.den)
        + (if (e.num.natAbs * p.den) * 10 ^ digits10 (p.num.natAbs * e.den)
              ≤ (p.num.natAbs * e.den) * 10 ^ digits10 (e.num.natAbs * p.den)
           then 0 else 1))
      hB0 hkey hu
    simp only [divDecimal]
    rw [if_neg (by push_neg; exact ⟨hp, he⟩)]
    rw [hquot, ← hq2]
    by_cases hneg : p.num * e.num < 0
    · rw [if_pos hneg]
      have hqneg : p / e < 0 := by
        rcases mul_neg_iff.mp hneg with ⟨h1, h2⟩ | ⟨h1, h2⟩
        · exact div_neg_of_pos_of_neg (Rat.num_pos.mp h1) (Rat.num_neg.mp h2)
        · exact div_neg_of_neg_of_pos (Rat.num_neg.mp h1) (Rat.num_pos.mp h2)
      rw [abs_of_neg hqneg, neg_neg]
    · rw [if_neg hneg]
      have hne : p.num * e.num ≠ 0 := mul_ne_zero hpn hen
      have hpos : 0 < p.num * e.num := by
        rcases lt_trichotomy (p.num * e.num) 0 with h | h | h
        · exact absurd h hneg
        · exact absurd h hne
        · exact h
      have hqpos : 0 < p / e := by
        rcases mul_pos_iff.mp hpos with ⟨h1, h2⟩ | ⟨h1, h2⟩
        · exact div_pos (Rat.num_pos.mp h1) (Rat.num_pos.mp h2)
        · exact div_pos_of_neg_of_neg (Rat.num_neg.mp h1) (Rat.num_neg.mp h2)
      exact abs_of_pos hqpos

/-- Claim C3, amended: for every Trading 212 row classified as a trade,
the emitted `price` is the quotient of `Price / share` by
`Exchange rate` computed as Python Decimal division under the default
context — correctly rounded to 28 significant digits with
`ROUND_HALF_EVEN` — and is therefore the exact quotient, never a
floating-point approximation, whenever the exact quotient fits in 28
significant digits. -/
theorem claim_C3 (r : Row) (rec : TradeRecord)
    (h : convert_trade_row r = some rec)
    (rawPrice rawRate : List Char)
    (hpk : r.get keyPrice = some rawPrice) (hrk : r.get keyRate = some rawRate)
    (p e : ℚ)
    (hpv : parseDecimal (trimL rawPrice) = some p)
    (hev : parseDecimal (trimL rawRate) = some e) :
    e ≠ 0 ∧ rec.price = divDecimal p e ∧
    (∀ c : ℤ, ∀ k : ℕ, c.natAbs < 10 ^ 28 → p / e = mkRat c (10 ^ k) →
      rec.price = p / e) := by
  obtain ⟨rA, rI, rTk, rId, rTm, rSh, rP, rT, rC, rR, hA, hI, hTk, hId, hTm, hSh, hP,
    hT2, hC, hR, dt, p0, tot, e0, c0, hdt, hp, htot2, he, he0, hc0, hrec⟩ :=
    convert_trade_row_inv r rec h
  rw [hP] at hpk
  injection hpk with hpk
  subst hpk
  rw [hR] at hrk
  injection hrk with hrk
  subst hrk
  rw [hp] at hpv
  injection hpv with hpv
  subst hpv
  rw [he] at hev
  injection hev with hev
  subst hev
  subst hrec
  exact ⟨he0, rfl, fun c k hc hq => divDecimal_exact p0 e0 c k hc hq⟩

def rowC3x : Row :=
  [(keyAction, "Market buy".toList),
   (keyISIN, "US0378331005".toList),
   (keyTicker, "AAPL".toList),
   (keyID, "t-2".toList),
   (keyTime, "2025-07-22 10:06:57".toList),
   (keyShares, "3".toList),
   (keyPrice, "10".toList),
   (keyTotal, "30".toList),
   (keyCurTotal, "EUR".toList),
   (keyRate, "3".toList)]

def recC3x : TradeRecord :=
  { broker := brokerT212
    tx_id := "t-2".toList
    direction := Direction.BUY
    symbol := "AAPL".toList
    isin := "US0378331005".toList
    country := "US".toList
    currency := "EUR".toList
    price := mkRat 3333333333333333333333333333 (10 ^ 27)
    quantity := "3".toList
    amount := 30
    commission := "0".toList
    operation_datetime := ⟨2025, 7, 22, 10, 6, 57, 0⟩
    settlement_date := ⟨2025, 7, 22⟩ }

/-- Claim C3 counterexample: `Price / share` 10 and `Exchange rate` 3
emit the 28-significant-digit value `3.333333333333333333333333333`,
not the exact quotient `10 / 3`, refuting the claim as stated. -/
theorem claim_C3_counterexample :
    convert_trade_row rowC3x = some recC3x ∧
    recC3x.price = mkRat 3333333333333333333333333333 (10 ^ 27) ∧
    recC3x.price ≠ (10 : ℚ) / 3 :=
  ⟨by decide, by decide, by decide⟩

def rowC3 : Row :=
  [(keyAction, "Market sell".toList),
   (keyISIN, "US0378331005".toList),
   (keyTicker, "AAPL".toList),
   (keyID, "t-3".toList),
   (keyTime, "2025-07-22 10:06:57".toList),
   (keyShares, "2".toList),
   (keyPrice, "10".toList),
   (keyTotal, "100".toList),
   (keyCurTotal, "EUR".toList),
   (keyRate, "0.8".toList),
   (keyFee, "2".toList)]

def recC3 : TradeRecord :=
  { broker := brokerT212
    tx_id := "t-3".toList
    direction := Direction.SELL
    symbol := "AAPL".toList
    isin := "US0378331005".toList
    country := "US".toList
    currency := "EUR".toList
    price := 25 / 2
    quantity := "2".toList
    amount := 102
    commission := "2".toList
    operation_datetime := ⟨2025, 7, 22, 10, 6, 57, 0⟩
    settlement_date := ⟨2025, 7, 22⟩ }

/-- Claim C3 witness: the spec example. `price_original = 10` and
`exchange_rate = 0.8` have the exact quotient `12.5`, which fits in 28
significant digits, so the emitted price is exactly `12.5 = 25/2` and
not a float approximation such as `12.499999`. -/
theorem claim_C3_witness : recC3.price = (12.5 : ℚ) ∧ (12.5 : ℚ) = 25 / 2 := by
  constructor
  · exact ((claim_C3 rowC3 recC3 (by decide) ("10".toList) ("0.8".toList) (by decide)
      (by decide) 10 (8 / 10) (by decide) (by decide)).2.2 125 1 (by decide)
      (by decide)).trans (by decide)
  · decide

/-- Claim C4: the Trading 212 converter classifies each row by exact
match on the trimmed `Action` in source order: `Market buy` /
`Market sell` yield a trade record with direction BUY / SELL,
`Interest on cash` yields an INTEREST income record, any other action
beginning with `Dividend` yields a DIVIDEND income record, and every
other action is dropped with no record and no error. -/
theorem claim_C4 (r : Row) (rawAction : List Char)
    (ha : r.get keyAction = some rawAction) :
    (trimL rawAction = actMarketBuy →
      t212_row r = (convert_trade_row r).map RowClass.trade ∧
      ∀ t, convert_trade_row r = some t → t.direction = Direction.BUY) ∧
    (trimL rawAction = actMarketSell →
      t212_row r = (convert_trade_row r).map RowClass.trade ∧
      ∀ t, convert_trade_row r = some t → t.direction = Direction.SELL) ∧
    (trimL rawAction = actInterest →
      t212_row r = (convert_interest_row r).map RowClass.income ∧
      ∀ i, convert_interest_row r = some i → i.income_type = IncomeType.INTEREST) ∧
    (trimL rawAction ≠ actMarketBuy → trimL rawAction ≠ actMarketSell →
     trimL rawAction ≠ actInterest → actDividend.isPrefixOf (trimL rawAction) = true →
      t212_row r = (convert_dividend_row r).map RowClass.income ∧
      ∀ i, convert_dividend_row r = some i → i.income_type = IncomeType.DIVIDEND) ∧
    (trimL rawAction ≠ actMarketBuy → trimL rawAction ≠ actMarketSell →
     trimL rawAction ≠ actInterest → actDividend.isPrefixOf (trimL rawAction) = false →
      t212_row r = some RowClass.skip) := by
  refine ⟨?_, ?_, ?_, ?_, ?_⟩
  · intro hb
    constructor
    · unfold t212_row
      rw [ha]
      simp only [Option.some_bind]
      rw [if_pos (Or.inl hb)]
    · intro t ht
      obtain ⟨rA, rI, rTk, rId, rTm, rSh, rP, rT, rC, rR, hA, hI, hTk, hId, hTm, hSh,
        hP, hT2, hC, hR, dt, p, tot, e, c, hdt, hp, htot2, he, he0, hc, hrec⟩ :=
        convert_trade_row_inv r t ht
      rw [ha] at hA
      injection hA with hA
      subst hA
      subst hrec
      simp [hb]
  · intro hb
    constructor
    · unfold t212_row
      rw [ha]
      simp only [Option.some_bind]
      rw [if_pos (Or.inr hb)]
    · intro t ht
      obtain ⟨rA, rI, rTk, rId, rTm, rSh, rP, rT, rC, rR, hA, hI, hTk, hId, hTm, hSh,
        hP, hT2, hC, hR, dt, p, tot, e, c, hdt, hp, htot2, he, he0, hc, hrec⟩ :=
        convert_trade_row_inv r t ht
      rw [ha] at hA
      injection hA with hA
      subst hA
      subst hrec
      have : trimL rawAction ≠ actMarketBuy := by
        rw [hb]; decide
      simp [this]
  · intro hb
    constructor
    · unfold t212_row
      rw [ha]
      simp only [Option.some_bind]
      rw [if_neg (by rw [hb]; decide), if_pos hb]
    · intro i hi
      obtain ⟨rT2, rTot, rCur, rId, dt, hTm, hdt, hTot, hCur, hId, hrec⟩ :=
        convert_interest_row_inv r i hi
      subst hrec
      rfl
  · intro h1 h2 h3 h4
    constructor
    · unfold t212_row
      rw [ha]
      simp only [Option.some_bind]
      rw [if_neg (by simp [h1, h2]), if_neg h3, if_pos h4]
    · intro i hi
      obtain ⟨rT2, rTk2, rId2, rTot2, rCur2, rRate2, dt, w, hTm, hTk, hId, hT, hC, hR,
        hdt, hw, hrec⟩ := convert_dividend_row_inv r i hi
      subst hrec
      rfl
  · intro h1 h2 h3 h4
    unfold t212_row
    rw [ha]
    simp only [Option.some_bind]
    rw [if_neg (by simp [h1, h2]), if_neg h3, if_neg (by simp [h4])]

def rowC4 : Row := [(keyAction, "Deposit".toList), (keyTotal, "100".toList)]

/-- Claim C4 witness: an `Action = Deposit` row is silently skipped. -/
theorem claim_C4_witness : t212_row rowC4 = some RowClass.skip :=
  (claim_C4 rowC4 ("Deposit".toList) (by decide)).2.2.2.2 (by decide) (by decide)
    (by decide) (by decide)

def rowC5 : Row :=
  [(keyAction, "Interest on cash".toList),
   (keyTime, "2025-07-22 10:06:57".toList),
   (keyTotal, "1.23".toList),
   (keyCurTotal, "EUR".toList),
   (keyID, "abc".toList)]

def recC5 : IncomeRecord :=
  { broker := brokerT212
    tx_id := "abc".toList
    income_type := IncomeType.INTEREST
    symbol := "EUR-INT".toList
    currency := "EUR".toList
    gross_amount := "1.23".toList
    wht_amount := 0
    operation_datetime := ⟨2025, 7, 22, 10, 6, 57, 0⟩
    settlement_date := ⟨2025, 7, 22⟩ }

/-- Claim C5 counterexample: a Trading 212 `Interest on cash` row with
`ID = abc` is emitted as an INTEREST income record whose `tx_id` is the
source `ID` verbatim, not the synthesized `symbol:settlement_date`
(which would be `EUR-INT:2025-07-22`), refuting the claim as stated. -/
theorem claim_C5_counterexample :
    convert_interest_row rowC5 = some recC5 ∧
    recC5.income_type = IncomeType.INTEREST ∧
    recC5.tx_id ≠ recC5.symbol ++ ':' :: recC5.settlement_date.isoformat :=
  ⟨by decide, by decide, by decide⟩

/-- Claim C5 amended: only the bunq converter synthesizes
`transaction_id` as `symbol:settlement_date` for its interest records;
the Trading 212 converter takes `tx_id` verbatim (trimmed) from the
source `ID` field for all record kinds, including interest. -/
theorem claim_C5_amended (r : Row) :
    (∀ rec, bunq_row r = some (some rec) →
      rec.income_type = IncomeType.INTEREST ∧
      rec.tx_id = rec.symbol ++ ':' :: rec.settlement_date.isoformat) ∧
    (∀ rawId, r.get keyID = some rawId →
      (∀ rec, convert_interest_row r = some rec → rec.tx_id = trimL rawId) ∧
      (∀ rec, convert_dividend_row r = some rec → rec.tx_id = trimL rawId) ∧
      (∀ rec, convert_trade_row r = some rec → rec.tx_id = trimL rawId)) := by
  constructor
  · intro rec h
    obtain ⟨rD, rDa, rAm, dt, cur, hD, hM, hDa, hdt, hAm, hCu, hrec⟩ :=
      bunq_row_emit_inv r rec h
    subst hrec
    exact ⟨rfl, rfl⟩
  · intro rawId hid
    refine ⟨?_, ?_, ?_⟩
    · intro rec h
      obtain ⟨rT2, rTot, rCur, rId, dt, hTm, hdt, hTot, hCur, hId, hrec⟩ :=
        convert_interest_row_inv r rec h
      rw [hid] at hId
      injection hId with hId
      subst hId
      subst hrec
      rfl
    · intro rec h
      obtain ⟨rT2, rTk2, rId2, rTot2, rCur2, rRate2, dt, w, hTm, hTk, hId, hT, hC, hR,
        hdt, hw, hrec⟩ := convert_dividend_row_inv r rec h
      rw [hid] at hId
      injection hId with hId
      subst hId
      subst hrec
      rfl
    · intro rec h
      obtain ⟨rA, rI, rTk, rId, rTm, rSh, rP, rT, rC, rR, hA, hI, hTk, hId, hTm, hSh,
        hP, hT2, hC, hR, dt, p, tot, e, c, hdt, hp, htot2, he, he0, hc, hrec⟩ :=
        convert_trade_row_inv r rec h
      rw [hid] at hId
      injection hId with hId
      subst hId
      subst hrec
      rfl

def rowC5b : Row :=
  [(keyDescription, " bunq Payday 2026-01-25 EUR ".toList),
   (keyDate, "2026-01-25".toList),
   (keyAmount, "1.00".toList)]

def recC5b : IncomeRecord :=
  { broker := brokerBUNQ
    tx_id := "EUR-INT:2026-01-25".toList
    income_type := IncomeType.INTEREST
    symbol := "EUR-INT".toList
    currency := "EUR".toList
    gross_amount := "1.00".toList
    wht_amount := 0
    operation_datetime := ⟨2026, 1, 25, 0, 0, 0, 0⟩
    settlement_date := ⟨2026, 1, 25⟩ }

/-- Claim C5 witness: the bunq record for `EUR` interest settled
2026-01-25 carries the synthesized id `EUR-INT:2026-01-25`, while the
Trading 212 interest record carries the source id `abc`. -/
theorem claim_C5_witness :
    recC5b.tx_id = recC5b.symbol ++ ':' :: recC5b.settlement_date.isoformat ∧
    recC5.tx_id = trimL ("abc".toList) :=
  ⟨((claim_C5_amended rowC5b).1 recC5b (by decide)).2,
   ((claim_C5_amended rowC5).2 ("abc".toList) (by decide)).1 recC5 (by decide)⟩

/-- Claim C6: the Trading 212 datetime parser accepts exactly two
forms, fractional-second and whole-second: the fractional format is
tried first, on its failure the whole-second format is used, and the
parse errors if and only if the input matches neither form. -/
theorem claim_C6 (l : List Char) :
    (∀ dt, strptime_frac l = some dt → parse_datetime l = some dt) ∧
    (strptime_frac l = none → parse_datetime l = strptime_whole l) ∧
    (parse_datetime l = none ↔ strptime_frac l = none ∧ strptime_whole l = none) := by
  unfold parse_datetime
  cases hf : strptime_frac l <;> simp [hf]

def dtC6 : DateTime := ⟨2025, 7, 22, 10, 6, 57, 358000⟩

/-- Claim C6 witness: `2025-07-22 10:06:57.358` parses via the
fractional format, and `2025-07-22 10:06:57` falls back to the
whole-second format. -/
theorem claim_C6_witness :
    parse_datetime ("2025-07-22 10:06:57.358".toList) = some dtC6 ∧
    parse_datetime ("2025-07-22 10:06:57".toList) =
      strptime_whole ("2025-07-22 10:06:57".toList) :=
  ⟨(claim_C6 ("2025-07-22 10:06:57.358".toList)).1 dtC6 (by decide),
   (claim_C6 ("2025-07-22 10:06:57".toList)).2.1 (by decide)⟩

/-- Claim C7: every bunq row passing the interest filter is emitted
with `gross_amount` equal to the trimmed `Amount` text with all comma
characters removed, kept as decimal text with no float conversion. -/
theorem claim_C7 (r : Row) (rec : IncomeRecord) (h : bunq_row r = some (some rec))
    (rawAmount : List Char) (ha : r.get keyAmount = some rawAmount) :
    rec.gross_amount = (trimL rawAmount).filter (fun c => c != ',') := by
  obtain ⟨rD, rDa, rAm, dt, cur, hD, hM, hDa, hdt, hAm, hCu, hrec⟩ :=
    bunq_row_emit_inv r rec h
  rw [hAm] at ha
  injection ha with ha
  subst ha
  subst hrec
  rfl

def rowC7 : Row :=
  [(keyDescription, "bunq Payday 2026-01-25 EUR".toList),
   (keyDate, "2026-01-25".toList),
   (keyAmount, " 1,234.56 ".toList)]

def recC7 : IncomeRecord :=
  { broker := brokerBUNQ
    tx_id := "EUR-INT:2026-01-25".toList
    income_type := IncomeType.INTEREST
    symbol := "EUR-INT".toList
    currency := "EUR".toList
    gross_amount := "1234.56".toList
    wht_amount := 0
    operation_datetime := ⟨2026, 1, 25, 0, 0, 0, 0⟩
    settlement_date := ⟨2026, 1, 25⟩ }

/-- Claim C7 witness: `Amount` text ` 1,234.56 ` is emitted as
`gross_amount` text `1234.56`. -/
theorem claim_C7_witness : recC7.gross_amount = "1234.56".toList :=
  (claim_C7 rowC7 recC7 (by decide) (" 1,234.56 ".toList) (by decide)).trans (by decide)

/-- Claim C8: in both converters each output stream is written only
when it holds at least one record: a written stream is never empty, and
a stream is unwritten exactly when its converted count is zero, so no
headerless output file is produced. -/
theorem claim_C8 (rows rows2 : List Row) (brun : BunqRun) (trun : T212Run)
    (hb : convert_bunq rows = some brun) (ht : convert_trading212 rows2 = some trun) :
    ((brun.written = none ↔ brun.count = 0) ∧
     ∀ recs, brun.written = some recs → recs ≠ []) ∧
    ((trun.trades_written = none ↔ trun.trades_converted = 0) ∧
     ∀ ts, trun.trades_written = some ts → ts ≠ []) ∧
    ((trun.income_written = none ↔ trun.income_converted = 0) ∧
     ∀ incs, trun.income_written = some incs → incs ≠ []) := by
  unfold convert_bunq at hb
  rw [Option.map_eq_some'] at hb
  obtain ⟨recs, hrecs, hb⟩ := hb
  unfold convert_trading212 at ht
  rw [Option.map_eq_some'] at ht
  obtain ⟨p, hp, ht⟩ := ht
  obtain ⟨ts, incs⟩ := p
  subst hb
  subst ht
  refine ⟨?_, ?_, ?_⟩
  · cases recs <;> simp
  · cases ts <;> simp
  · cases incs <;> simp

/-- Claim C8 witness: converting an empty row sequence writes neither
stream. -/
theorem claim_C8_witness :
    ((BunqRun.mk none 0).written = none ↔ (BunqRun.mk none 0).count = 0) ∧
    (T212Run.mk none none 0 0).trades_written = none :=
  ⟨(claim_C8 [] [] (BunqRun.mk none 0) (T212Run.mk none none 0 0) rfl rfl).1.1,
   ((claim_C8 [] [] (BunqRun.mk none 0) (T212Run.mk none none 0 0) rfl rfl).2.1.1).mpr rfl⟩

/-- Claim C9: the bunq entry point catches any conversion error,
printing one stderr line and exiting with code 1, while the Trading 212
entry point has no such catch and the error propagates raw. -/
theorem claim_C9 :
    bunq_main none = BunqCLI.failure 1 errLine ∧
    (∀ run, bunq_main (some run) = BunqCLI.success run) ∧
    t212_main none = none ∧
    (∀ run, t212_main (some run) = some (T212CLI.success run)) :=
  ⟨rfl, fun _ => rfl, rfl, fun _ => rfl⟩

/-- Claim C10: for every description containing the `bunq Payday`
marker (as every row passing the interest filter does), splitting on
whitespace yields a non-empty token list, so taking the last token as
the currency code is total. -/
theorem claim_C10 (description : List Char)
    (h : markerBunqPayday <:+: description) :
    ((splitWS description).getLast?).isSome = true := by
  have hb : 'b' ∈ description := h.subset (by decide)
  have hne : splitWS description ≠ [] :=
    splitWS_ne_nil_of_mem description 'b' hb (by decide)
  exact List.getLast?_isSome.mpr hne

/-- Claim C10 witness: the currency token exists for the description
`bunq Payday 2026-01-25 EUR`. -/
theorem claim_C10_witness :
    ((splitWS ("bunq Payday 2026-01-25 EUR".toList)).getLast?).isSome = true :=
  claim_C10 ("bunq Payday 2026-01-25 EUR".toList) (by decide)
